import Mathlib

/-!
Verification of the `fmu.dataio` export metadata engine.

Python strings are modelled as `List Char`; Python truthiness of a string is
emptiness of the list.  Fallible routines return `Except PyErr _` where the
`PyErr` constructor records which Python exception class was raised.  Each
definition mirrors one function (or one contiguous part of a function) of the
source, keeping the source's statement order.
-/

set_option autoImplicit false

namespace FmuDataio

def strL (s : String) : List Char := s.data

/-- The Python exception classes raised by the modelled code. -/
inductive PyErr where
  | value (msg : List Char)
  | validation (msg : List Char)
  | runtime (msg : List Char)
  | os (msg : List Char)
  | index
deriving DecidableEq

/-- Python `str.lower`, restricted to the character sets this code base deals
with: ASCII letters plus the upper-case Norwegian letters; every other
character is left unchanged. -/
def pyLower (c : Char) : Char :=
  if c = 'Æ' then 'æ' else if c = 'Ø' then 'ø' else if c = 'Å' then 'å' else c.toLower

def lowerL (s : List Char) : List Char := s.map pyLower

/-- Python `str.replace(a, b)` for a one-character pattern and a
one-character replacement. -/
def replaceChar (a b : Char) (s : List Char) : List Char :=
  s.map fun c => if c = a then b else c

/-- Python `str.replace(a, r)` for a one-character pattern and a string
replacement (used for the diacritic substitutions). -/
def replaceCh2 (a : Char) (r : List Char) : List Char → List Char
  | [] => []
  | c :: rest => (if c = a then r else [c]) ++ replaceCh2 a r rest

/-- Python `"__" in s`: does the string contain two adjacent underscores? -/
def hasDD : List Char → Bool
  | [] => false
  | [_] => false
  | a :: b :: rest => (a = '_' && b = '_') || hasDD (b :: rest)

/-- One pass of Python `s.replace("__", "_")`: non-overlapping, left to
right. -/
def replaceDD : List Char → List Char
  | [] => []
  | [c] => [c]
  | a :: b :: rest =>
      if a = '_' ∧ b = '_' then '_' :: replaceDD rest
      else a :: replaceDD (b :: rest)

/-- The `while "__" in stem: stem = stem.replace("__", "_")` loop.  Each pass
strictly shrinks a string that still contains `"__"`, so `s.length` passes
always suffice; the fuel argument makes the loop structurally recursive. -/
def collapseFuel : Nat → List Char → List Char
  | 0, s => s
  | n + 1, s => if hasDD s then collapseFuel n (replaceDD s) else s

def collapseU (s : List Char) : List Char := collapseFuel s.length s

/-- `stem.replace("æ", "ae").replace("ø", "oe").replace("å", "aa")`. -/
def replDia (s : List Char) : List Char :=
  replaceCh2 'å' (strL "aa") (replaceCh2 'ø' (strL "oe") (replaceCh2 'æ' (strL "ae") s))

/-- `NoDD s`: no two adjacent characters of `s` are both underscores. -/
def NoDD (s : List Char) : Prop :=
  List.Chain' (fun x y => ¬(x = '_' ∧ y = '_')) s

/-! Dates.  In the source, `objdata.time0` and `objdata.time1` are Python
`datetime` values (or `None`); `str(t)[0:10]` is the ISO date `YYYY-MM-DD`. -/

def digitChar (n : Nat) : Char := (strL "0123456789").getD (n % 10) '0'

structure PyDate where
  year : Nat
  month : Nat
  day : Nat
deriving DecidableEq

/-- `str(t)[0:10]`: the ISO rendering `YYYY-MM-DD` of a date. -/
def isoDate (t : PyDate) : List Char :=
  [digitChar (t.year / 1000), digitChar (t.year / 100), digitChar (t.year / 10),
   digitChar t.year, '-', digitChar (t.month / 10), digitChar t.month, '-',
   digitChar (t.day / 10), digitChar t.day]

/-- `(str(t)[0:10]).replace("-", "")` as applied in `_get_filestem`. -/
def dateToken (t : PyDate) : List Char :=
  ((isoDate t).take 10).filter (fun c => c ≠ '-')

/-- The inputs read by `FileDataProvider._get_filestem`: `dataio.name`,
`objdata.name`, `dataio.tagname`, `dataio.parent`, `objdata.time0`,
`objdata.time1` and the class variable `filename_timedata_reverse`. -/
structure StemInput where
  dataio_name : List Char
  objdata_name : List Char
  tagname : List Char
  parent : List Char
  time0 : Option PyDate
  time1 : Option PyDate
  filename_timedata_reverse : Bool

/-- The property `FileDataProvider.name`: `self.dataio.name or self.objdata.name`
(Python `or` on strings falls through on the empty string). -/
def providerName (i : StemInput) : List Char :=
  if i.dataio_name ≠ [] then i.dataio_name else i.objdata_name

/-- `FileDataProvider._get_filestem`.  Python quote characters inside the
error messages are elided.  The non-fatal equal-dates warning is a logging
side effect only and is not part of the returned value. -/
def get_filestem (i : StemInput) : Except PyErr (List Char) :=
  if providerName i = [] then
    .error (.value (strL "The name entry is missing for constructing a file name"))
  else if i.time0 = none ∧ i.time1 ≠ none then
    .error (.value (strL "Not legal: time0 is missing while time1 is present"))
  else
    let stem1 := lowerL (providerName i)
    let stem2 := if i.tagname ≠ [] then stem1 ++ strL "--" ++ lowerL i.tagname else stem1
    let stem3 := if i.parent ≠ [] then lowerL i.parent ++ strL "--" ++ stem2 else stem2
    let stem4 :=
      match i.time0, i.time1 with
      | some t0, none => stem3 ++ strL "--" ++ dateToken t0
      | some t0, some t1 =>
          if i.filename_timedata_reverse then
            stem3 ++ strL "--" ++ dateToken t0 ++ strL "_" ++ dateToken t1
          else
            stem3 ++ strL "--" ++ dateToken t1 ++ strL "_" ++ dateToken t0
      | _, _ => stem3
    let stem5 := replaceChar '.' '_' stem4
    let stem6 := replaceChar ' ' '_' stem5
    .ok (replDia (collapseU stem6))

/-- The stem as the spec words it: `[parent--]name[--tagname][--monitor_base|--date]`,
lower-cased as a whole, then `.` and space mapped to `_`, repeated `_`
collapsed, and the diacritic substitutions applied. -/
def spec_stem (i : StemInput) : List Char :=
  let timepart : List Char :=
    match i.time0, i.time1 with
    | some t0, none => strL "--" ++ dateToken t0
    | some t0, some t1 =>
        if i.filename_timedata_reverse then
          strL "--" ++ dateToken t0 ++ strL "_" ++ dateToken t1
        else
          strL "--" ++ dateToken t1 ++ strL "_" ++ dateToken t0
    | _, _ => []
  let raw :=
    (if i.parent ≠ [] then i.parent ++ strL "--" else []) ++ providerName i ++
      (if i.tagname ≠ [] then strL "--" ++ i.tagname else []) ++ timepart
  replDia (collapseU (replaceChar ' ' '_' (replaceChar '.' '_' (lowerL raw))))

/-- Python `p in s` (substring containment), on `List Char`: helper. -/
def startsWithL : List Char → List Char → Bool
  | [], _ => true
  | _ :: _, [] => false
  | p :: ps, c :: cs => p = c && startsWithL ps cs

/-- Python `p in s` (substring containment), on `List Char`. -/
def containsL (pat : List Char) : List Char → Bool
  | [] => startsWithL pat []
  | c :: rest => startsWithL pat (c :: rest) || containsL pat rest

/-- The `FmuContext` enum of `fmu.dataio._definitions`; spec section 3 lists
exactly these five values. -/
inductive FmuContext where
  | REALIZATION
  | CASE
  | CASE_SYMLINK_REALIZATION
  | PREPROCESSED
  | NON_FMU
deriving DecidableEq

/-- `ExportData._validate_and_establish_fmucontext`, called from
`__post_init__` and from `_update_check_settings` (hence on every
settings-update and metadata-generation call).  The environment probe
`get_fmu_context_from_environment()` is passed as `env`; `self._fmurun` is
`env != NON_FMU` as computed in `__post_init__`.  The requested context is
modelled post-parsing as `Option FmuContext` (`None` means not explicitly
given).  Returns the established context together with whether the non-fatal
override diagnostic (`logger.warning`) was emitted. -/
def validate_and_establish_fmucontext (requested : Option FmuContext)
    (env : FmuContext) : FmuContext × Bool :=
  let fmurun := env ≠ FmuContext.NON_FMU
  let ctx :=
    match requested with
    | none => env
    | some c => c
  if ¬fmurun ∧ ctx ≠ FmuContext.PREPROCESSED then (FmuContext.NON_FMU, true)
  else (ctx, false)

/-! Content validation (`_check_content` and `_content_validate` in
`dataio.py`).  The content taxonomy (`AllowedContent`, an external pydantic
model from `datastructure._internal`) is out of scope per the spec; it enters
as a parameter record: its field names, its "requires additional input" flag,
and its per-name sub-schema validator returning either a normalized payload or
a pydantic error message. -/

/-- A Python value, as far as `_check_content` inspects one. -/
inductive PyVal where
  | str (s : List Char)
  | num (n : Int)
  | boolV (b : Bool)
  | dict (entries : List (List Char × PyVal))
  | noneV

/-- The `content` argument: `str | dict | None`, or any other type. -/
inductive ContentArg where
  | noneA
  | strA (s : List Char)
  | dictA (entries : List (List Char × PyVal))
  | otherA

/-- The externally defined content taxonomy (`AllowedContent`). -/
structure ContentTaxonomy where
  model_fields : List (List Char)
  requires_additional_input : List Char → Bool
  validate : List Char → PyVal → Except (List Char) PyVal

def joinComma (xs : List (List Char)) : List Char :=
  List.intercalate (strL ", ") xs

/-- `_content_validate`: wraps the pydantic sub-schema validation, converting
a pydantic error into a `ValidationError` whose message contains the
partial-failure sentence.  Newlines of the Python triple-quoted message are
kept; quote characters are elided. -/
def content_validate (tax : ContentTaxonomy) (name : List Char) (fields : PyVal) :
    Except PyErr PyVal :=
  match tax.validate name fields with
  | .ok d => .ok d
  | .error e =>
      .error (.validation (strL "The field " ++ name ++
        strL " has one or more errors that makes it\nimpossible to create valid content. The data will still be exported but no\nmetadata will be made. You are strongly encouraged to correct your\nconfiguration. Invalid configuration may be disallowed in future versions.\n\nDetailed information:\n" ++
        e ++ strL "\n"))

/-- `_check_content`.  For a dict, `usecontent` is the first key
(`list(content.keys())[0]`, an `IndexError` on an empty dict) and
`content_specific` its value (Python dicts have unique keys, so the first
entry's value is `content[usecontent]`).  The final `if content_specific:`
is Python truthiness: an empty payload dict skips `_content_validate`. -/
def check_content (tax : ContentTaxonomy) (proposed : ContentArg) :
    Except PyErr (List Char × Option PyVal) :=
  match proposed with
  | .noneA => .ok (strL "unset", none)
  | .strA s =>
      if tax.requires_additional_input s then
        .error (.validation (strL "content " ++ s ++ strL " requires additional input"))
      else if s ≠ strL "unset" ∧ s ∉ tax.model_fields then
        .error (.validation (strL "Invalid content: <" ++ s ++ strL ">! Valid content: " ++
          joinComma tax.model_fields))
      else
        .ok (s, none)
  | .dictA entries =>
      match entries with
      | [] => .error .index
      | (k, v) :: _ =>
          match v with
          | .dict fields =>
              if k ≠ strL "unset" ∧ k ∉ tax.model_fields then
                .error (.validation (strL "Invalid content: <" ++ k ++
                  strL ">! Valid content: " ++ joinComma tax.model_fields))
              else
                match fields with
                | [] => .ok (k, some (.dict []))
                | f :: fs =>
                    match content_validate tax k (.dict (f :: fs)) with
                    | .ok d => .ok (k, some d)
                    | .error e => .error e
          | _ =>
              .error (.value (strL "Content is incorrectly formatted. When giving content as a dict, it must be formatted with one valid content name mapped to a dictionary of extra keys valid for this content."))
  | .otherA => .error (.validation (strL "The content must be string or dict"))

/-- A concrete taxonomy instance exercising the content rules: two content
names; `fluid_contact` requires the single payload key `contact`. -/
def demoTaxonomy : ContentTaxonomy where
  model_fields := [strL "depth", strL "fluid_contact"]
  requires_additional_input := fun s => s = strL "fluid_contact"
  validate := fun name fields =>
    if name = strL "fluid_contact" then
      match fields with
      | .dict ((c, _) :: _) =>
          if c = strL "contact" then .ok fields
          else .error (strL "extra fields not permitted")
      | _ => .error (strL "field required: contact")
    else .ok fields

/-! Destination path resolution (`FileDataProvider._get_path` and
`_get_path_generic`).  A `pathlib.Path` is an absolute-flag plus segments;
the filesystem is the list of existing directories;
`mkdir(parents=True, exist_ok=True)` inserts a directory and all its
ancestors, skipping those already present. -/

structure PyPath where
  absolute : Bool
  segs : List (List Char)
deriving DecidableEq

/-- `path / "segment"`. -/
def pathJoin (p : PyPath) (s : List Char) : PyPath :=
  { p with segs := p.segs ++ [s] }

def splitSlashAux : List Char → List Char → List (List Char)
  | [], acc => [acc.reverse]
  | '/' :: rest, acc => acc.reverse :: splitSlashAux rest []
  | c :: rest, acc => splitSlashAux rest (c :: acc)

/-- Segments of a slash-separated string (pathlib collapses empty parts). -/
def splitSlash (s : List Char) : List (List Char) :=
  (splitSlashAux s []).filter (fun x => x ≠ [])

/-- `Path(forcefolder).absolute()` for a forcefolder starting with `/`. -/
def absForcePath (ff : List Char) : PyPath := ⟨true, splitSlash ff⟩

/-- `forcefolder and forcefolder.startswith("/")`. -/
def startsWithSlash : List Char → Bool
  | [] => false
  | c :: _ => c = '/'

def initSegs {α : Type} : List α → List (List α)
  | [] => [[]]
  | a :: t => [] :: (initSegs t).map (fun l => a :: l)

/-- Every ancestor directory of a path, the path itself included. -/
def ancestors (p : PyPath) : List PyPath :=
  (initSegs p.segs).map (fun l => PyPath.mk p.absolute l)

def insertDir (fs : List PyPath) (q : PyPath) : List PyPath :=
  if q ∈ fs then fs else fs ++ [q]

/-- `dest.mkdir(parents=True, exist_ok=True)` on the modelled filesystem. -/
def mkdirParents (fs : List PyPath) (p : PyPath) : List PyPath :=
  List.foldl insertDir fs (ancestors p)

/-- The `ExportData` / `ObjectDataProvider` fields that
`FileDataProvider._get_path_generic` reads: `rootpath`, `realname`,
`itername`, `dataio.forcefolder`, the class variable
`allow_forcefolder_absolute`, `dataio.is_observation`, `dataio.subfolder`,
the class variables `createfolder` and `verifyfolder`, `objdata.efolder`
and `dataio.fmu_context`. -/
structure FileDataCfg where
  rootpath : PyPath
  realname : List Char
  itername : List Char
  forcefolder : List Char
  allow_forcefolder_absolute : Bool
  is_observation : Bool
  subfolder : List Char
  createfolder : Bool
  verifyfolder : Bool
  efolder : List Char
  fmu_context : FmuContext

def msgForcePreproc : List Char :=
  strL "Cannot use absolute path to forcefolder with preprocessed data"

def msgForceAbs : List Char :=
  strL "The forcefolder includes an absolute path, i.e. starting with a path-root marker. This is strongly discouraged and is only allowed if classvariable allow_forcefolder_absolute is set to True"

def msgForceNotRecommended : List Char :=
  strL "Using absolute paths in forcefolder is not recommended!"

def msgForceCombi : List Char :=
  strL "You cannot use forcefolder in combination with fmucontext="

/-- The pure part of `_get_path_generic`: everything up to (and including)
the `raise` statements, before the `mkdir`/`exists` filesystem effects, which
in the source all come last.  Returns the destination, the
`forcefolder_is_absolute` marker and the emitted warnings. -/
def derive_dest (cfg : FileDataCfg) (mode : FmuContext) (allow_forcefolder : Bool)
    (info : List Char) : Except PyErr (PyPath × Bool × List (List Char)) :=
  let r1 :=
    if mode = FmuContext.REALIZATION ∧ cfg.realname ≠ [] then
      pathJoin cfg.rootpath cfg.realname
    else cfg.rootpath
  let r2 :=
    if mode = FmuContext.REALIZATION ∧ cfg.itername ≠ [] then
      pathJoin r1 cfg.itername
    else r1
  let r3 := pathJoin r2 (strL "share")
  if mode = FmuContext.PREPROCESSED then
    if startsWithSlash cfg.forcefolder then
      .error (.value msgForcePreproc)
    else
      let dest := pathJoin (pathJoin r3 (strL "preprocessed")) cfg.efolder
      .ok ((if cfg.subfolder ≠ [] then pathJoin dest cfg.subfolder else dest), false, [])
  else
    let r4 :=
      pathJoin r3 (if cfg.is_observation then strL "observations" else strL "results")
    let dest := pathJoin r4 cfg.efolder
    if startsWithSlash cfg.forcefolder then
      if ¬cfg.allow_forcefolder_absolute then
        .error (.value msgForceAbs)
      else
        let destf := absForcePath cfg.forcefolder
        if ¬allow_forcefolder then
          .error (.runtime (msgForceCombi ++ info))
        else
          .ok ((if cfg.subfolder ≠ [] then pathJoin destf cfg.subfolder else destf),
            true, [msgForceNotRecommended])
    else
      .ok ((if cfg.subfolder ≠ [] then pathJoin dest cfg.subfolder else dest), false, [])

/-- `_get_path_generic`: the pure derivation followed by the filesystem
steps (`mkdir` when `createfolder`, existence check when `verifyfolder`).
Returns destination, `forcefolder_is_absolute`, the updated filesystem and
the warnings. -/
def get_path_generic (cfg : FileDataCfg) (fs : List PyPath) (mode : FmuContext)
    (allow_forcefolder : Bool) (info : List Char) :
    Except PyErr (PyPath × Bool × List PyPath × List (List Char)) :=
  match derive_dest cfg mode allow_forcefolder info with
  | .error e => .error e
  | .ok (dest, ffabs, warns) =>
      let fs1 := if cfg.createfolder then mkdirParents fs dest else fs
      if cfg.verifyfolder ∧ dest ∉ fs1 then
        .error (.os (strL "Folder is not present."))
      else .ok (dest, ffabs, fs1, warns)

/-- `_get_path`: primary destination with `allow_forcefolder=True`; for
`CASE_SYMLINK_REALIZATION` a secondary symlink destination is computed with
`mode=REALIZATION` and `allow_forcefolder=False`. -/
def get_path (cfg : FileDataCfg) (fs : List PyPath) :
    Except PyErr (PyPath × Option PyPath × List PyPath) :=
  match get_path_generic cfg fs cfg.fmu_context true [] with
  | .error e => .error e
  | .ok (dest, _, fs1, _) =>
      if cfg.fmu_context = FmuContext.CASE_SYMLINK_REALIZATION then
        match get_path_generic cfg fs1 FmuContext.REALIZATION false
            (strL "CASE_SYMLINK_REALIZATION") with
        | .error e => .error e
        | .ok (link, _, fs2, _) => .ok (dest, some link, fs2)
      else .ok (dest, none, fs1)

/-- The destination an enabled absolute forcefolder produces: the forced
absolute path, with the `subfolder` (spec algorithm step 8) still appended
afterwards when given. -/
def forced_dest (cfg : FileDataCfg) : PyPath :=
  if cfg.subfolder ≠ [] then pathJoin (absForcePath cfg.forcefolder) cfg.subfolder
  else absForcePath cfg.forcefolder

/-- A concrete configuration with an absolute forcefolder, the opt-in flag
enabled, and the symlink-producing context. -/
def cfg3 : FileDataCfg where
  rootpath := ⟨true, [strL "scratch", strL "case"]⟩
  realname := strL "realization-0"
  itername := strL "iter-0"
  forcefolder := strL "/tmp/force"
  allow_forcefolder_absolute := true
  is_observation := false
  subfolder := []
  createfolder := true
  verifyfolder := true
  efolder := strL "maps"
  fmu_context := FmuContext.CASE_SYMLINK_REALIZATION

/-- A concrete configuration (no forcefolder) for exercising idempotent
destination resolution. -/
def cfg8 : FileDataCfg where
  rootpath := ⟨true, [strL "scratch", strL "case"]⟩
  realname := strL "realization-0"
  itername := strL "iter-0"
  forcefolder := []
  allow_forcefolder_absolute := false
  is_observation := false
  subfolder := strL "sub"
  createfolder := true
  verifyfolder := true
  efolder := strL "maps"
  fmu_context := FmuContext.REALIZATION

/-! The tail of `ExportData.export` (everything after `generate_metadata`
returned), and `ExportData._check_process_object`. -/

/-- `Path(p).name`: the part after the final slash. -/
def pathBasename (p : List Char) : List Char :=
  (p.reverse.takeWhile (fun c => c ≠ '/')).reverse

/-- `Path(p).parent` rendered with its trailing slash. -/
def pathDirname (p : List Char) : List Char :=
  (p.reverse.dropWhile (fun c => c ≠ '/')).reverse

/-- `outfile.parent / ("." + str(outfile.name) + ".yml")`. -/
def metaFileOf (p : List Char) : List Char :=
  pathDirname p ++ strL "." ++ pathBasename p ++ strL ".yml"

/-- The slice of the generated metadata `file` block that the tail of
`export` reads. -/
structure FileBlock where
  absolute_path : List Char
  absolute_path_symlink : Option (List Char)

/-- The observable I/O side effects of the tail of `export`. -/
inductive Effect where
  | write_object (path : List Char)
  | write_meta (path : List Char)
  | warned (msg : List Char)
  | symlinked (src target : List Char)

/-- The tail of `ExportData.export` after `generate_metadata` has produced
the metadata: write the object (`export_file_compute_checksum_md5`, which
also injects the checksum into the metadata dict), then either write the
metadata sidecar (valid configuration) or emit the non-fatal diagnostic
(invalid configuration), then create the symlinks when a symlink destination
is present, and return the physical path (or the symlink target when
`return_symlink` is set and a target exists).  The function is total: no
branch raises. -/
def export_write (config_is_valid : Bool) (fb : FileBlock)
    (return_symlink : Bool) : List Char × List Effect :=
  let outfile := fb.absolute_path
  let metafile := metaFileOf outfile
  let effs1 := [Effect.write_object outfile]
  let effs2 :=
    if config_is_valid then [Effect.write_meta metafile]
    else [Effect.warned (strL "Data will be exported, but without metadata.")]
  match fb.absolute_path_symlink with
  | some target =>
      let metafile_target := pathDirname target ++ strL "." ++ pathBasename outfile ++ strL ".yml"
      ((if return_symlink then target else outfile),
        effs1 ++ effs2 ++ [Effect.symlinked outfile target,
          Effect.symlinked metafile metafile_target])
  | none => (outfile, effs1 ++ effs2)

/-- A handle passed to `generate_metadata`: an in-memory object or a
filesystem path (`str`/`Path`). -/
inductive ObjHandle where
  | inmem
  | file (p : List Char)
deriving DecidableEq

/-- `preprocessed.get(key, "")`. -/
def getStrD (assoc : List (List Char × List Char)) (k : List Char) : List Char :=
  (assoc.lookup k).getD []

/-- Python `a or b` on strings. -/
def pyOr (a b : List Char) : List Char := if a ≠ [] then a else b

/-- `ExportData._check_process_object`.  The filesystem probe `obj.exists()`
and the parsed sidecar metadata (`read_metadata`, specifically whether it
carries the `_preprocessed` block and that block's entries) enter as
arguments.  Returns the updated `name`, `tagname`, `subfolder`, the
`_reuse_metadata` flag, and the stored object handle.  The source builds the
marker-missing message from adjacent string literals without separating
spaces ("ismissing", "thepreprocessed"); that concatenation is preserved. -/
def check_process_object (name tagname subfolder : List Char) (obj : ObjHandle)
    (file_exists : Bool) (meta_preprocessed : Option (List (List Char × List Char))) :
    Except PyErr (List Char × List Char × List Char × Bool × ObjHandle) :=
  match obj with
  | .inmem => .ok (name, tagname, subfolder, false, .inmem)
  | .file p =>
      if ¬file_exists then
        .error (.validation (strL "The file " ++ p ++ strL " does not exist."))
      else
        match meta_preprocessed with
        | none =>
            .error (.validation (strL "The special entry for preprocessed data <_preprocessed> ismissing in the metadata. A possible solution is to rerun thepreprocessed export."))
        | some pre =>
            .ok (pyOr name (getStrD pre (strL "name")),
              pyOr tagname (getStrD pre (strL "tagname")),
              pyOr subfolder (getStrD pre (strL "subfolder")),
              true, .file p)

/-! Basic lemmas about the normalization passes. -/

theorem replaceDD_length_le : ∀ s : List Char, (replaceDD s).length ≤ s.length := by
  intro s
  induction s using replaceDD.induct with
  | case1 => simp [replaceDD]
  | case2 c => simp [replaceDD]
  | case3 a b rest h ih =>
      simp only [replaceDD, if_pos h, List.length_cons]
      omega
  | case4 a b rest h ih =>
      simp only [replaceDD, if_neg h, List.length_cons]
      simpa using ih

theorem replaceDD_length_lt : ∀ s : List Char, hasDD s = true → (replaceDD s).length < s.length := by
  intro s
  induction s using replaceDD.induct with
  | case1 => simp [hasDD]
  | case2 c => simp [hasDD]
  | case3 a b rest h ih =>
      intro _
      have := replaceDD_length_le rest
      simp only [replaceDD, if_pos h, List.length_cons]
      omega
  | case4 a b rest h ih =>
      intro hdd
      have hab : ¬(a = '_' && b = '_') = true := by
        simpa [decide_eq_true_eq] using h
      have : hasDD (b :: rest) = true := by
        simpa [hasDD, hab] using hdd
      have hlen := ih this
      simp only [List.length_cons] at hlen
      simp only [replaceDD, if_neg h, List.length_cons]
      omega

theorem collapseFuel_noDD : ∀ (n : Nat) (s : List Char), s.length ≤ n →
    hasDD (collapseFuel n s) = false := by
  intro n
  induction n with
  | zero =>
      intro s hs
      have : s = [] := List.length_eq_zero.mp (Nat.le_zero.mp hs)
      subst this
      simp [collapseFuel, hasDD]
  | succ n ih =>
      intro s hs
      by_cases h : hasDD s = true
      · have hlt := replaceDD_length_lt s h
        have : (replaceDD s).length ≤ n := by omega
        simpa [collapseFuel, h] using ih _ this
      · simp only [collapseFuel]
        rw [if_neg (by simpa using h)]
        simpa using h

theorem collapseU_noDD (s : List Char) : hasDD (collapseU s) = false :=
  collapseFuel_noDD s.length s (Nat.le_refl _)

theorem hasDD_eq_false_iff : ∀ s : List Char, hasDD s = false ↔ NoDD s := by
  intro s
  induction s using hasDD.induct with
  | case1 => simp [hasDD, NoDD]
  | case2 c => simp [hasDD, NoDD]
  | case3 a b rest ih =>
      rw [NoDD, List.chain'_cons, ← NoDD, ← ih]
      simp [hasDD]

theorem noDD_of_no_underscore : ∀ l : List Char, (∀ c ∈ l, c ≠ '_') → NoDD l := by
  intro l
  induction l with
  | nil => intro _; exact List.chain'_nil
  | cons c t ih =>
      intro h
      rw [NoDD, List.chain'_cons']
      refine ⟨fun y _ hy => ?_, ih fun d hd => h d (List.mem_cons_of_mem _ hd)⟩
      exact h c (List.mem_cons_self _ _) hy.1

theorem mem_of_head? {α : Type} {l : List α} {x : α} (h : x ∈ l.head?) : x ∈ l := by
  rw [List.eq_cons_of_mem_head? h]
  exact List.mem_cons_self _ _

theorem mem_of_getLast? {α : Type} {l : List α} {x : α} (h : x ∈ l.getLast?) : x ∈ l := by
  obtain ⟨h1, h2⟩ := List.mem_getLast?_eq_getLast h
  exact h2 ▸ List.getLast_mem h1

theorem mem_chunk {a : Char} {r : List Char} {c x : Char}
    (hx : x ∈ (if c = a then r else [c])) : x = c ∨ x ∈ r := by
  by_cases h : c = a
  · rw [if_pos h] at hx
    exact Or.inr hx
  · rw [if_neg h] at hx
    exact Or.inl (List.mem_singleton.mp hx)

theorem head?_replaceCh2 {a : Char} {r : List Char} (hne : r ≠ []) :
    ∀ {s : List Char} {y : Char}, y ∈ (replaceCh2 a r s).head? →
      ∃ d t, s = d :: t ∧ (y = d ∨ y ∈ r) := by
  intro s y hy
  cases s with
  | nil => simp [replaceCh2] at hy
  | cons d t =>
      refine ⟨d, t, rfl, ?_⟩
      have hch : (if d = a then r else [d]) ≠ [] := by
        by_cases h : d = a
        · rw [if_pos h]; exact hne
        · rw [if_neg h]; exact List.cons_ne_nil _ _
      rw [replaceCh2, List.head?_append_of_ne_nil _ hch] at hy
      exact mem_chunk (mem_of_head? hy)

theorem replaceCh2_noDD {a : Char} {r : List Char}
    (hr : ∀ c ∈ r, c ≠ '_') (hne : r ≠ []) :
    ∀ s : List Char, NoDD s → NoDD (replaceCh2 a r s) := by
  intro s
  induction s with
  | nil => intro _; exact List.chain'_nil
  | cons c rest ih =>
      intro hs
      rw [NoDD, List.chain'_cons'] at hs
      rw [replaceCh2]
      apply List.chain'_append.mpr
      refine ⟨?_, ih hs.2, ?_⟩
      · by_cases h : c = a
        · rw [if_pos h]
          exact noDD_of_no_underscore r hr
        · rw [if_neg h]
          exact List.chain'_singleton c
      · intro x hx y hy hxy
        obtain ⟨hx', hy'⟩ := hxy
        have hxc : x = c ∨ x ∈ r := mem_chunk (mem_of_getLast? hx)
        have hc : c = '_' := by
          rcases hxc with h | h
          · rw [← h]; exact hx'
          · exact absurd hx' (hr x h)
        obtain ⟨d, t, hrest, hyd⟩ := head?_replaceCh2 hne hy
        have hd : d = '_' := by
          rcases hyd with h | h
          · rw [← h]; exact hy'
          · exact absurd hy' (hr y h)
        subst hrest
        exact hs.1 d rfl ⟨hc, hd⟩

theorem replDia_noDD {s : List Char} (h : hasDD s = false) :
    hasDD (replDia s) = false := by
  rw [hasDD_eq_false_iff] at h ⊢
  rw [replDia]
  apply replaceCh2_noDD ?_ (by decide)
  · apply replaceCh2_noDD ?_ (by decide)
    · apply replaceCh2_noDD ?_ (by decide)
      · exact h
      · intro c hc
        simp [strL] at hc
        rcases hc with rfl | rfl <;> decide
    · intro c hc
      simp [strL] at hc
      rcases hc with rfl | rfl <;> decide
  · intro c hc
    simp [strL] at hc
    rcases hc with rfl
    decide

theorem pyLower_digitChar (n : Nat) : pyLower (digitChar n) = digitChar n := by
  rw [digitChar]
  have h : n % 10 < 10 := Nat.mod_lt _ (by decide)
  generalize n % 10 = k at h ⊢
  interval_cases k <;> decide

theorem mem_isoDate {t : PyDate} {c : Char} (h : c ∈ isoDate t) :
    c = '-' ∨ ∃ n, c = digitChar n := by
  simp only [isoDate, List.mem_cons, List.not_mem_nil, or_false] at h
  rcases h with rfl | rfl | rfl | rfl | rfl | rfl | rfl | rfl | rfl | rfl
  all_goals first
    | exact Or.inl rfl
    | exact Or.inr ⟨_, rfl⟩

theorem lowerL_dateToken (t : PyDate) : lowerL (dateToken t) = dateToken t := by
  have hall : ∀ c ∈ dateToken t, pyLower c = c := by
    intro c hc
    have hne : c ≠ '-' := by
      have := List.of_mem_filter hc
      simpa using this
    have hmem : c ∈ isoDate t :=
      List.take_subset _ _ (List.mem_of_mem_filter hc)
    rcases mem_isoDate hmem with h | ⟨n, rfl⟩
    · exact absurd h hne
    · exact pyLower_digitChar n
  rw [lowerL, List.map_congr_left hall, List.map_id']

theorem lowerL_append (a b : List Char) : lowerL (a ++ b) = lowerL a ++ lowerL b :=
  List.map_append _ _ _

theorem lowerL_dashdash : lowerL (strL "--") = strL "--" := by decide

theorem lowerL_underscoreL : lowerL (strL "_") = strL "_" := by decide

theorem lowerL_nil : lowerL [] = [] := rfl

/-- C1: for every valid input (non-empty effective name; `time1` only together
with `time0`), the derived file stem is exactly the spec's
`[parent--]name[--tagname][--monitor_base|--date]` pattern lower-cased with
`.` and space mapped to `_`, repeated `_` collapsed and the diacritic
substitutions applied; the stem never contains a doubled underscore
(determinism holds because `get_filestem` is a pure function); and the spec's
worked example produces `parent--name--tag--20220102_20200101`. -/
theorem C1_filestem (i : StemInput)
    (hname : providerName i ≠ [])
    (htime : i.time1 ≠ none → i.time0 ≠ none) :
    get_filestem i = Except.ok (spec_stem i) ∧
    (∀ s, get_filestem i = Except.ok s → hasDD s = false) ∧
    get_filestem ⟨strL "name", [], strL "tag", strL "parent",
        some ⟨2020, 1, 1⟩, some ⟨2022, 1, 2⟩, false⟩ =
      Except.ok (strL "parent--name--tag--20220102_20200101") := by
  have hcond : ¬(i.time0 = none ∧ i.time1 ≠ none) := fun h => htime h.2 h.1
  have hmain : get_filestem i = Except.ok (spec_stem i) := by
    simp only [get_filestem, spec_stem, if_neg hname, if_neg hcond]
    rcases h0 : i.time0 with _ | t0 <;> rcases h1 : i.time1 with _ | t1
    · by_cases hp : i.parent = [] <;> by_cases ht : i.tagname = [] <;>
        simp [hp, ht, lowerL_append, lowerL_dashdash, lowerL_nil, List.append_assoc]
    · exact absurd ⟨h0, by simp [h1]⟩ hcond
    · by_cases hp : i.parent = [] <;> by_cases ht : i.tagname = [] <;>
        simp [hp, ht, lowerL_append, lowerL_dashdash, lowerL_nil,
          lowerL_dateToken, List.append_assoc]
    · by_cases hr : i.filename_timedata_reverse <;>
        by_cases hp : i.parent = [] <;> by_cases ht : i.tagname = [] <;>
        simp [hr, hp, ht, lowerL_append, lowerL_dashdash, lowerL_nil,
          lowerL_underscoreL, lowerL_dateToken, List.append_assoc]
  refine ⟨hmain, ?_, rfl⟩
  intro s hs
  rw [hmain] at hs
  have hss : spec_stem i = s := by
    simpa using hs
  rw [← hss]
  exact replDia_noDD (collapseU_noDD _)

theorem C1_filestem_witness :
    get_filestem ⟨strL "name", [], strL "tag", strL "parent", some ⟨2020, 1, 1⟩,
        some ⟨2022, 1, 2⟩, false⟩ =
      Except.ok (spec_stem ⟨strL "name", [], strL "tag", strL "parent",
        some ⟨2020, 1, 1⟩, some ⟨2022, 1, 2⟩, false⟩) :=
  (C1_filestem ⟨strL "name", [], strL "tag", strL "parent", some ⟨2020, 1, 1⟩,
      some ⟨2022, 1, 2⟩, false⟩ (by decide) (by decide)).1

/-- C7: building the file stem fails with a `ValueError` whose message
mentions `name` exactly when the effective name is empty; fails with a
`ValueError` whose message mentions `time1` when `time1` is present while
`time0` is missing; and succeeds on all other inputs. -/
theorem C7_stem_fatal (i : StemInput) :
    (providerName i = [] →
      ∃ m, get_filestem i = Except.error (PyErr.value m) ∧
        containsL (strL "name") m = true) ∧
    (providerName i ≠ [] → i.time0 = none → i.time1 ≠ none →
      ∃ m, get_filestem i = Except.error (PyErr.value m) ∧
        containsL (strL "time1") m = true) ∧
    (providerName i ≠ [] → ¬(i.time0 = none ∧ i.time1 ≠ none) →
      ∃ s, get_filestem i = Except.ok s) := by
  refine ⟨?_, ?_, ?_⟩
  · intro h
    have hres : get_filestem i =
        Except.error (PyErr.value (strL "The name entry is missing for constructing a file name")) := by
      simp only [get_filestem]
      rw [if_pos h]
    exact ⟨_, hres, by decide⟩
  · intro hn h0 h1
    have hres : get_filestem i =
        Except.error (PyErr.value (strL "Not legal: time0 is missing while time1 is present")) := by
      simp only [get_filestem]
      rw [if_neg hn, if_pos ⟨h0, h1⟩]
    exact ⟨_, hres, by decide⟩
  · intro hn hc
    simp only [get_filestem]
    rw [if_neg hn, if_neg hc]
    exact ⟨_, rfl⟩

/-- C2: when the environment probe reports a non-FMU (non-pipeline) run, the
established context is force-overridden to `NON_FMU` with a non-fatal
diagnostic whenever the requested/resolved context is not `PREPROCESSED`;
a requested `PREPROCESSED` context is preserved; in particular a requested
`REALIZATION` context resolves to `NON_FMU`. -/
theorem C2_context_override (requested : Option FmuContext) :
    (requested.getD FmuContext.NON_FMU ≠ FmuContext.PREPROCESSED →
      validate_and_establish_fmucontext requested FmuContext.NON_FMU =
        (FmuContext.NON_FMU, true)) ∧
    (requested = some FmuContext.PREPROCESSED →
      validate_and_establish_fmucontext requested FmuContext.NON_FMU =
        (FmuContext.PREPROCESSED, false)) ∧
    validate_and_establish_fmucontext (some FmuContext.REALIZATION)
        FmuContext.NON_FMU = (FmuContext.NON_FMU, true) := by
  refine ⟨?_, ?_, by decide⟩
  · intro h
    rcases requested with _ | c
    · decide
    · simp only [Option.getD_some] at h
      simp only [validate_and_establish_fmucontext]
      rw [if_pos ⟨fun hq => hq rfl, h⟩]
  · intro h
    subst h
    decide

theorem C2_context_override_witness :
    validate_and_establish_fmucontext (some FmuContext.REALIZATION)
        FmuContext.NON_FMU = (FmuContext.NON_FMU, true) ∧
    validate_and_establish_fmucontext (some FmuContext.PREPROCESSED)
        FmuContext.NON_FMU = (FmuContext.PREPROCESSED, false) :=
  ⟨(C2_context_override (some FmuContext.REALIZATION)).1 (by decide),
   (C2_context_override (some FmuContext.PREPROCESSED)).2.1 rfl⟩

theorem C7_stem_fatal_witness :
    (∃ m, get_filestem ⟨[], [], [], [], none, none, false⟩ =
        Except.error (PyErr.value m) ∧ containsL (strL "name") m = true) ∧
    (∃ m, get_filestem ⟨strL "x", [], [], [], none, some ⟨2020, 1, 1⟩, false⟩ =
        Except.error (PyErr.value m) ∧ containsL (strL "time1") m = true) ∧
    (∃ s, get_filestem ⟨strL "x", [], [], [], none, none, false⟩ = Except.ok s) :=
  ⟨(C7_stem_fatal _).1 (by decide),
   (C7_stem_fatal _).2.1 (by decide) (by decide) (by decide),
   (C7_stem_fatal _).2.2 (by decide) (by decide)⟩

theorem startsWithL_append_of {p q : List Char} (r : List Char)
    (h : startsWithL p q = true) : startsWithL p (q ++ r) = true := by
  induction p generalizing q with
  | nil => rfl
  | cons a ps ih =>
      cases q with
      | nil => simp [startsWithL] at h
      | cons c cs =>
          simp only [startsWithL, Bool.and_eq_true] at h
          simp only [List.cons_append, startsWithL, Bool.and_eq_true]
          exact ⟨h.1, ih h.2⟩

theorem containsL_of_startsWith {p s : List Char} (h : startsWithL p s = true) :
    containsL p s = true := by
  cases s with
  | nil => exact h
  | cons c rest => simp [containsL, h]

theorem containsL_append_right {p r : List Char} (s : List Char)
    (h : containsL p r = true) : containsL p (s ++ r) = true := by
  induction s with
  | nil => exact h
  | cons c t ih => simp [containsL, ih]

theorem containsL_append_left {p s : List Char} (r : List Char)
    (h : containsL p s = true) : containsL p (s ++ r) = true := by
  induction s with
  | nil =>
      cases p with
      | nil => exact containsL_of_startsWith rfl
      | cons a ps => simp [containsL, startsWithL] at h
  | cons c t ih =>
      simp only [containsL, Bool.or_eq_true] at h
      rcases h with h | h
      · exact containsL_of_startsWith (by simpa using startsWithL_append_of r h)
      · simp only [List.cons_append, containsL, Bool.or_eq_true]
        exact Or.inr (ih h)

/-- C4 (amended): for a single-key mapping the key becomes the content name;
a non-mapping payload is an "incorrectly formatted" error; a name outside the
taxonomy is a fatal validation error; a NON-EMPTY payload is validated and
normalized against that name's sub-schema, and a sub-schema failure raises a
validation error whose message states the data will still be exported without
metadata.  (An empty payload mapping bypasses the sub-schema validation, see
the counterexample.) -/
theorem C4_content_single_key (tax : ContentTaxonomy) (k : List Char) :
    (∀ v, (∀ fs, v ≠ PyVal.dict fs) →
      ∃ m, check_content tax (.dictA [(k, v)]) = .error (.value m) ∧
        containsL (strL "incorrectly formatted") m = true) ∧
    (∀ fields, k ≠ strL "unset" → k ∉ tax.model_fields →
      ∃ m, check_content tax (.dictA [(k, PyVal.dict fields)]) =
          .error (.validation m) ∧
        containsL (strL "Invalid content") m = true) ∧
    (∀ f fs, ¬(k ≠ strL "unset" ∧ k ∉ tax.model_fields) →
      ∀ e, tax.validate k (.dict (f :: fs)) = .error e →
      ∃ m, check_content tax (.dictA [(k, PyVal.dict (f :: fs))]) =
          .error (.validation m) ∧
        containsL (strL "The data will still be exported but no") m = true) ∧
    (∀ f fs, ¬(k ≠ strL "unset" ∧ k ∉ tax.model_fields) →
      ∀ d, tax.validate k (.dict (f :: fs)) = .ok d →
      check_content tax (.dictA [(k, PyVal.dict (f :: fs))]) = .ok (k, some d)) := by
  refine ⟨?_, ?_, ?_, ?_⟩
  · intro v hv
    cases v with
    | dict fs => exact absurd rfl (hv fs)
    | str s => exact ⟨_, rfl, by decide⟩
    | num n => exact ⟨_, rfl, by decide⟩
    | boolV b => exact ⟨_, rfl, by decide⟩
    | noneV => exact ⟨_, rfl, by decide⟩
  · intro fields hk1 hk2
    have hres : check_content tax (.dictA [(k, PyVal.dict fields)]) =
        .error (.validation (strL "Invalid content: <" ++ k ++
          strL ">! Valid content: " ++ joinComma tax.model_fields)) := by
      simp only [check_content]
      rw [if_pos ⟨hk1, hk2⟩]
    refine ⟨_, hres, ?_⟩
    rw [List.append_assoc, List.append_assoc]
    exact containsL_of_startsWith (startsWithL_append_of _ (by decide))
  · intro f fs hk e hval
    have hres : check_content tax (.dictA [(k, PyVal.dict (f :: fs))]) =
        .error (.validation (strL "The field " ++ k ++
          strL " has one or more errors that makes it\nimpossible to create valid content. The data will still be exported but no\nmetadata will be made. You are strongly encouraged to correct your\nconfiguration. Invalid configuration may be disallowed in future versions.\n\nDetailed information:\n" ++
          e ++ strL "\n")) := by
      simp only [check_content]
      rw [if_neg hk]
      simp only [content_validate, hval]
    refine ⟨_, hres, ?_⟩
    rw [List.append_assoc, List.append_assoc, List.append_assoc]
    apply containsL_append_right
    apply containsL_append_right
    apply containsL_append_left
    decide
  · intro f fs hk d hval
    simp only [check_content]
    rw [if_neg hk]
    simp only [content_validate, hval]

theorem C4_content_single_key_witness :
    (∃ m, check_content demoTaxonomy
        (.dictA [(strL "depth", PyVal.str (strL "x"))]) = .error (.value m) ∧
      containsL (strL "incorrectly formatted") m = true) ∧
    (∃ m, check_content demoTaxonomy
        (.dictA [(strL "mycontent", PyVal.dict [(strL "a", PyVal.num 1)])]) =
          .error (.validation m) ∧
      containsL (strL "Invalid content") m = true) ∧
    (∃ m, check_content demoTaxonomy
        (.dictA [(strL "fluid_contact", PyVal.dict [(strL "bad", PyVal.num 1)])]) =
          .error (.validation m) ∧
      containsL (strL "The data will still be exported but no") m = true) ∧
    check_content demoTaxonomy
        (.dictA [(strL "fluid_contact",
          PyVal.dict [(strL "contact", PyVal.str (strL "goc"))])]) =
      .ok (strL "fluid_contact",
        some (PyVal.dict [(strL "contact", PyVal.str (strL "goc"))])) :=
  ⟨(C4_content_single_key demoTaxonomy (strL "depth")).1 _ (fun fs h => by cases h),
   (C4_content_single_key demoTaxonomy (strL "mycontent")).2.1 _ (by decide) (by decide),
   (C4_content_single_key demoTaxonomy (strL "fluid_contact")).2.2.1 _ []
     (by decide) (strL "extra fields not permitted") rfl,
   (C4_content_single_key demoTaxonomy (strL "fluid_contact")).2.2.2 _ []
     (by decide) (PyVal.dict [(strL "contact", PyVal.str (strL "goc"))]) rfl⟩

/-- C4 counterexample to the unamended claim: the sub-schema rejects every
payload for `fluid_contact` that lacks the `contact` key — including the
empty payload — yet `check_content` returns the empty payload unvalidated
(Python `if content_specific:` is false for an empty dict), instead of the
claimed validation error. -/
theorem C4_content_single_key_counterexample :
    demoTaxonomy.validate (strL "fluid_contact") (PyVal.dict []) =
      .error (strL "field required: contact") ∧
    check_content demoTaxonomy (.dictA [(strL "fluid_contact", PyVal.dict [])]) =
      .ok (strL "fluid_contact", some (PyVal.dict [])) :=
  ⟨rfl, rfl⟩

/-- C9: for `content = {}` (empty mapping) `_check_content` evaluates
`list(content.keys())[0]`, an uncaught `IndexError`, not a validation error
with a descriptive message. -/
theorem C9_empty_content_dict (tax : ContentTaxonomy) :
    check_content tax (.dictA []) = .error .index := rfl

/-- C10: for a content mapping with two or more entries, only the first key
becomes the content name and only its value the payload; the remaining
entries are ignored with no error or diagnostic — the result is identical to
the single-entry call. -/
theorem C10_extra_keys_ignored (tax : ContentTaxonomy) (k : List Char)
    (v : PyVal) (rest : List (List Char × PyVal)) :
    check_content tax (.dictA ((k, v) :: rest)) =
      check_content tax (.dictA [(k, v)]) := rfl

theorem mem_insertDir_self (fs : List PyPath) (q : PyPath) : q ∈ insertDir fs q := by
  rw [insertDir]
  split
  · assumption
  · simp

theorem mem_insertDir_of_mem {fs : List PyPath} {x : PyPath} (q : PyPath)
    (h : x ∈ fs) : x ∈ insertDir fs q := by
  rw [insertDir]
  split
  · exact h
  · exact List.mem_append_left _ h

theorem mem_foldl_insertDir_of_mem {x : PyPath} :
    ∀ (l : List PyPath) (fs : List PyPath), x ∈ fs → x ∈ List.foldl insertDir fs l := by
  intro l
  induction l with
  | nil => intro fs h; exact h
  | cons q t ih => intro fs h; exact ih _ (mem_insertDir_of_mem q h)

theorem mem_foldl_insertDir_of_mem_list {x : PyPath} :
    ∀ (l : List PyPath) (fs : List PyPath), x ∈ l → x ∈ List.foldl insertDir fs l := by
  intro l
  induction l with
  | nil => intro fs h; cases h
  | cons q t ih =>
      intro fs h
      rcases List.mem_cons.mp h with rfl | h
      · exact mem_foldl_insertDir_of_mem t _ (mem_insertDir_self fs x)
      · exact ih _ h

theorem foldl_insertDir_noop :
    ∀ (l : List PyPath) (fs : List PyPath), (∀ a ∈ l, a ∈ fs) →
      List.foldl insertDir fs l = fs := by
  intro l
  induction l with
  | nil => intro fs _; rfl
  | cons q t ih =>
      intro fs h
      have hq : insertDir fs q = fs := by
        rw [insertDir, if_pos (h q (List.mem_cons_self _ _))]
      rw [List.foldl_cons, hq]
      exact ih fs fun a ha => h a (List.mem_cons_of_mem _ ha)

theorem self_mem_initSegs {α : Type} : ∀ l : List α, l ∈ initSegs l := by
  intro l
  induction l with
  | nil => simp [initSegs]
  | cons a t ih =>
      rw [initSegs]
      exact List.mem_cons_of_mem _ (List.mem_map_of_mem _ ih)

theorem self_mem_ancestors (p : PyPath) : p ∈ ancestors p := by
  rw [ancestors]
  exact List.mem_map_of_mem _ (self_mem_initSegs p.segs)

theorem mem_mkdirParents_self (fs : List PyPath) (p : PyPath) :
    p ∈ mkdirParents fs p :=
  mem_foldl_insertDir_of_mem_list _ _ (self_mem_ancestors p)

theorem mkdirParents_idem (fs : List PyPath) (p : PyPath) :
    mkdirParents (mkdirParents fs p) p = mkdirParents fs p :=
  foldl_insertDir_noop _ _ fun _ ha => mem_foldl_insertDir_of_mem_list _ _ ha

/-- C3: an absolute `forcefolder` (leading path-root marker) is fatal unless
the class flag `allow_forcefolder_absolute` is enabled; when enabled it
entirely replaces the derived destination (with `subfolder` still appended
per step 8) and is marked forced-absolute; it is always fatal under
`PREPROCESSED`; and under `CASE_SYMLINK_REALIZATION` the symlink (secondary)
destination computation always fails fatally. -/
theorem C3_forcefolder_absolute (cfg : FileDataCfg) (fs : List PyPath)
    (hff : startsWithSlash cfg.forcefolder = true) :
    (cfg.allow_forcefolder_absolute = false →
      ∀ (mode : FmuContext) (allow : Bool) (info : List Char),
        ∃ e, get_path_generic cfg fs mode allow info = .error e) ∧
    (cfg.allow_forcefolder_absolute = true → cfg.createfolder = true →
      ∀ (mode : FmuContext) (info : List Char), mode ≠ FmuContext.PREPROCESSED →
        get_path_generic cfg fs mode true info =
          .ok (forced_dest cfg, true, mkdirParents fs (forced_dest cfg),
            [msgForceNotRecommended])) ∧
    (∀ (allow : Bool) (info : List Char),
      ∃ e, get_path_generic cfg fs FmuContext.PREPROCESSED allow info = .error e) ∧
    (cfg.fmu_context = FmuContext.CASE_SYMLINK_REALIZATION →
      ∃ e, get_path cfg fs = .error e) := by
  refine ⟨?_, ?_, ?_, ?_⟩
  · intro hoff mode allow info
    by_cases hm : mode = FmuContext.PREPROCESSED
    · have hder : derive_dest cfg mode allow info = .error (.value msgForcePreproc) := by
        simp only [derive_dest]
        rw [if_pos hm, if_pos hff]
      exact ⟨.value msgForcePreproc, by simp only [get_path_generic, hder]⟩
    · have hder : derive_dest cfg mode allow info = .error (.value msgForceAbs) := by
        simp only [derive_dest]
        rw [if_neg hm, if_pos hff, if_pos (by simp [hoff])]
      exact ⟨.value msgForceAbs, by simp only [get_path_generic, hder]⟩
  · intro hon hcreate mode info hm
    have hder : derive_dest cfg mode true info =
        .ok (forced_dest cfg, true, [msgForceNotRecommended]) := by
      simp only [derive_dest, forced_dest]
      rw [if_neg hm, if_pos hff, if_neg (by simp [hon]), if_neg (by simp)]
    simp only [get_path_generic, hder, hcreate, if_true]
    rw [if_neg fun hc => hc.2 (mem_mkdirParents_self fs (forced_dest cfg))]
  · intro allow info
    have hder : derive_dest cfg FmuContext.PREPROCESSED allow info =
        .error (.value msgForcePreproc) := by
      simp only [derive_dest]
      rw [if_pos True.intro, if_pos hff]
    exact ⟨.value msgForcePreproc, by simp only [get_path_generic, hder]⟩
  · intro hctx
    cases h1 : get_path_generic cfg fs cfg.fmu_context true [] with
    | error e => exact ⟨e, by simp only [get_path, h1]⟩
    | ok q =>
        obtain ⟨dest, bb, fs1, ws⟩ := q
        have hder2 : ∃ e2, derive_dest cfg FmuContext.REALIZATION false
            (strL "CASE_SYMLINK_REALIZATION") = .error e2 := by
          by_cases hflag : cfg.allow_forcefolder_absolute
          · refine ⟨.runtime (msgForceCombi ++ strL "CASE_SYMLINK_REALIZATION"), ?_⟩
            simp only [derive_dest]
            rw [if_neg (by decide : ¬(FmuContext.REALIZATION = FmuContext.PREPROCESSED)),
              if_pos hff, if_neg (by simp [hflag]), if_pos (by simp)]
          · refine ⟨.value msgForceAbs, ?_⟩
            simp only [derive_dest]
            rw [if_neg (by decide : ¬(FmuContext.REALIZATION = FmuContext.PREPROCESSED)),
              if_pos hff, if_pos (by simp [hflag])]
        obtain ⟨e2, he2⟩ := hder2
        refine ⟨e2, ?_⟩
        simp only [get_path, h1]
        rw [if_pos hctx]
        simp only [get_path_generic, he2]

theorem C3_forcefolder_absolute_witness :
    (∃ e, get_path_generic { cfg3 with allow_forcefolder_absolute := false } []
        FmuContext.REALIZATION true [] = .error e) ∧
    get_path_generic cfg3 [] FmuContext.CASE true [] =
      .ok (forced_dest cfg3, true, mkdirParents [] (forced_dest cfg3),
        [msgForceNotRecommended]) ∧
    (∃ e, get_path_generic cfg3 [] FmuContext.PREPROCESSED true [] = .error e) ∧
    (∃ e, get_path cfg3 [] = .error e) :=
  ⟨(C3_forcefolder_absolute { cfg3 with allow_forcefolder_absolute := false } []
      (by decide)).1 rfl FmuContext.REALIZATION true [],
   (C3_forcefolder_absolute cfg3 [] (by decide)).2.1 rfl rfl FmuContext.CASE []
     (by decide),
   (C3_forcefolder_absolute cfg3 [] (by decide)).2.2.1 true [],
   (C3_forcefolder_absolute cfg3 [] (by decide)).2.2.2 rfl⟩

/-- C8: resolving the destination a second time with identical settings,
starting from the filesystem state in which the target directory already
exists (the state the first resolution produced), yields the same
destination, the same unchanged filesystem, and no error: directory creation
is create-if-absent and tolerant of pre-existing directories. -/
theorem C8_path_idempotent (cfg : FileDataCfg) (fs : List PyPath)
    (mode : FmuContext) (allow : Bool) (info : List Char) (d : PyPath) (b : Bool)
    (fs1 : List PyPath) (w : List (List Char))
    (h : get_path_generic cfg fs mode allow info = .ok (d, b, fs1, w)) :
    get_path_generic cfg fs1 mode allow info = .ok (d, b, fs1, w) := by
  cases hd : derive_dest cfg mode allow info with
  | error e =>
      rw [get_path_generic, hd] at h
      cases h
  | ok triple =>
      obtain ⟨d0, b0, w0⟩ := triple
      simp only [get_path_generic, hd] at h ⊢
      by_cases hc : cfg.createfolder
      · have hfsh : (if cfg.createfolder = true then mkdirParents fs d0 else fs) =
            mkdirParents fs d0 := if_pos hc
        rw [hfsh] at h
        rw [if_neg fun hx => hx.2 (mem_mkdirParents_self fs d0)] at h
        simp only [Except.ok.injEq, Prod.mk.injEq] at h
        obtain ⟨rfl, rfl, hfs, rfl⟩ := h
        have hgsh : (if cfg.createfolder = true then mkdirParents fs1 d0 else fs1) =
            mkdirParents fs1 d0 := if_pos hc
        rw [hgsh, ← hfs, mkdirParents_idem]
        rw [if_neg fun hx => hx.2 (mem_mkdirParents_self fs d0)]
      · have hfsh : (if cfg.createfolder = true then mkdirParents fs d0 else fs) = fs :=
          if_neg hc
        rw [hfsh] at h
        by_cases hv : cfg.verifyfolder = true ∧ d0 ∉ fs
        · rw [if_pos hv] at h
          cases h
        · rw [if_neg hv] at h
          simp only [Except.ok.injEq, Prod.mk.injEq] at h
          obtain ⟨rfl, rfl, rfl, rfl⟩ := h
          have hgsh : (if cfg.createfolder = true then mkdirParents fs d0 else fs) = fs :=
            if_neg hc
          rw [hgsh, if_neg hv]

theorem C8_path_idempotent_witness :
    ∃ d b fs1 w,
      get_path_generic cfg8 [] FmuContext.REALIZATION true [] = .ok (d, b, fs1, w) ∧
      get_path_generic cfg8 fs1 FmuContext.REALIZATION true [] = .ok (d, b, fs1, w) := by
  refine ⟨_, _, _, _, rfl, ?_⟩
  exact C8_path_idempotent cfg8 [] FmuContext.REALIZATION true [] _ _ _ _ rfl

/-- C5: with an invalid configuration, `export` still writes the data object
to the resolved path and returns that path without raising, skips the
metadata sidecar entirely, and emits the non-fatal "Data will be exported,
but without metadata." diagnostic instead of an error. -/
theorem C5_export_invalid_config (fb : FileBlock) :
    (export_write false fb false).1 = fb.absolute_path ∧
    Effect.write_object fb.absolute_path ∈ (export_write false fb false).2 ∧
    (∀ p, Effect.write_meta p ∉ (export_write false fb false).2) ∧
    Effect.warned (strL "Data will be exported, but without metadata.") ∈
      (export_write false fb false).2 := by
  cases hsym : fb.absolute_path_symlink with
  | none =>
      refine ⟨?_, ?_, ?_, ?_⟩ <;> simp [export_write, hsym]
  | some target =>
      refine ⟨?_, ?_, ?_, ?_⟩ <;> simp [export_write, hsym]

/-- C6: for a filesystem-path handle, a missing file is a fatal validation
error; an existing file whose sidecar metadata lacks the `_preprocessed`
marker is a fatal validation error suggesting rerunning the preprocessing
export; with the marker present, `name`, `tagname` and `subfolder` are
adopted from the prior metadata exactly when not already set on the current
call (Python `or`). -/
theorem C6_preprocessed_reuse (name tagname subfolder p : List Char)
    (fe : Bool) (mp : Option (List (List Char × List Char))) :
    (fe = false →
      ∃ m, check_process_object name tagname subfolder (.file p) fe mp =
          .error (.validation m) ∧ containsL (strL "does not exist") m = true) ∧
    (fe = true → mp = none →
      ∃ m, check_process_object name tagname subfolder (.file p) fe mp =
          .error (.validation m) ∧ containsL (strL "_preprocessed") m = true ∧
          containsL (strL "rerun") m = true ∧
          containsL (strL "preprocessed export") m = true) ∧
    (∀ pre, fe = true → mp = some pre →
      check_process_object name tagname subfolder (.file p) fe mp =
        .ok (pyOr name (getStrD pre (strL "name")),
          pyOr tagname (getStrD pre (strL "tagname")),
          pyOr subfolder (getStrD pre (strL "subfolder")),
          true, .file p)) := by
  refine ⟨?_, ?_, ?_⟩
  · intro hfe
    subst hfe
    refine ⟨_, rfl, ?_⟩
    rw [List.append_assoc]
    apply containsL_append_right
    apply containsL_append_right
    decide
  · intro hfe hmp
    subst hfe
    subst hmp
    exact ⟨_, rfl, by decide, by decide, by decide⟩
  · intro pre hfe hmp
    subst hfe
    subst hmp
    rfl

theorem C6_preprocessed_reuse_witness :
    (∃ m, check_process_object (strL "n") [] [] (.file (strL "/f.gri")) false none =
        .error (.validation m) ∧ containsL (strL "does not exist") m = true) ∧
    (∃ m, check_process_object (strL "n") [] [] (.file (strL "/f.gri")) true none =
        .error (.validation m) ∧ containsL (strL "_preprocessed") m = true ∧
        containsL (strL "rerun") m = true ∧
        containsL (strL "preprocessed export") m = true) ∧
    check_process_object [] [] (strL "sub") (.file (strL "/f.gri")) true
        (some [(strL "name", strL "pname"), (strL "tagname", strL "ptag")]) =
      .ok (strL "pname", strL "ptag", strL "sub", true, .file (strL "/f.gri")) :=
  ⟨(C6_preprocessed_reuse (strL "n") [] [] (strL "/f.gri") false none).1 rfl,
   (C6_preprocessed_reuse (strL "n") [] [] (strL "/f.gri") true none).2.1 rfl rfl,
   (C6_preprocessed_reuse [] [] (strL "sub") (strL "/f.gri") true
      (some [(strL "name", strL "pname"), (strL "tagname", strL "ptag")])).2.2 _ rfl rfl⟩

end FmuDataio

